import Mathlib

/-!
Verification of the Cortex Search RAG chat front-end
(src/streamlit/CortexSearchSampleApp.py) against its specification.

The Python source is shallowly embedded: pure helper functions become Lean
functions on `String` / `List`; the calls to external collaborators
(SQL introspection, the semantic search service, the completion endpoint,
the host UI widgets) are passed in as explicit oracle arguments, with
`Except String α` modelling a Python call that may raise; a Python
`try/except` block becomes a `match` on the `Except` value. Python strings
are modelled as `String` (or `List Char` where character-level counting is
proved), Python dict rows as association lists.
-/

namespace CortexApp

/-- A search result record: a mapping from column name to a value, with
`none` for an absent key (Python `dict.get` returning `None`). -/
abbrev Row : Type := List (String × String)

/-- Python `r.get(k)`: first binding of `k` in the record, or `none`. -/
def Row.get (r : Row) (k : String) : Option String :=
  List.lookup k r

/-- A ContextRow as built by query_cortex_search_service (lines 464-470):
the dict with keys idx / relative_path / file_url / chunk / score. -/
structure ContextRow where
  idx : Nat
  relative_path : Option String
  file_url : Option String
  chunk : String
  score : Option String
deriving DecidableEq, Repr

/-- A Turn as appended to st.session_state.chat_history (lines 619-625). -/
structure Turn where
  timestamp : String
  question : String
  answer : String
  model : String
  contexts : List ContextRow
deriving DecidableEq, Repr

/-- Python truthiness-based `a or b` on optional strings: `a` is falsy when
it is `None` or the empty string, in which case the result is `b`. -/
def pyOr (a b : Option String) : Option String :=
  match a with
  | some s => if s = "" then b else some s
  | none => b

/-- Python str.lower() on the column and probe strings this program
handles, modelled character-wise on the string's character list (agreeing
with Python on ASCII). -/
def py_lower (s : String) : String := String.mk (s.data.map Char.toLower)

/-- Python str.upper(), modelled character-wise like `py_lower`. -/
def py_upper (s : String) : String := String.mk (s.data.map Char.toUpper)

/-- Python str.strip(): whitespace removed from both ends. -/
def py_strip (s : String) : String :=
  String.mk (((s.data.dropWhile Char.isWhitespace).reverse.dropWhile Char.isWhitespace).reverse)

/-! ### Conversation state: build_history_text (source lines 477-485) -/

/-- Embedding of build_history_text: if k ≤ 0 or the log is empty the result
is the empty string; otherwise the last k turns (Python slice
chat_history[-k:]) each contribute the two lines "User: question" and
"Assistant: answer", and all lines are joined with newlines. -/
def build_history_text (chat_history : List Turn) (k : Int) : String :=
  if k ≤ 0 ∨ chat_history = [] then ""
  else
    let turns := chat_history.drop (chat_history.length - k.toNat)
    let messages := turns.flatMap fun t =>
      ["User: " ++ t.question, "Assistant: " ++ t.answer]
    String.intercalate "\n" messages

/-! ### Column intersection (source lines 149-160) -/

/-- The lookup in the Python dict comprehension
`allowed_map = {a.lower(): a for a in allowed}`: the LAST element of
`allowed` whose lowercasing equals the key wins (later dict insertions
overwrite earlier ones). -/
def allowed_lookup (allowed : List String) (lc : String) : Option String :=
  allowed.reverse.find? fun a => py_lower a = lc

/-- The loop of intersect_preserving_order_caseaware, carrying the `seen`
set (modelled as a list, membership only). -/
def intersect_go (allowed : List String) : List String → List String → List String
  | [], _ => []
  | c :: cs, seen =>
    match allowed_lookup allowed (py_lower c) with
    | some actual =>
        if actual ∈ seen then intersect_go allowed cs seen
        else actual :: intersect_go allowed cs (actual :: seen)
    | none => intersect_go allowed cs seen

/-- Embedding of intersect_preserving_order_caseaware (lines 149-160). -/
def intersect_preserving_order_caseaware (candidates allowed : List String) : List String :=
  intersect_go allowed candidates []

/-! ### Effective request columns (query_cortex_search_service, lines 443-446) -/

/-- The effective request column list of query_cortex_search_service:
the case-aware order-preserving intersection of the requested columns with
the available columns, with the descriptor search column force-prepended
(in the available list's casing when known) whenever no intersection
element matches it case-insensitively. -/
def effective_request_columns (columns : List String) (search_col : String)
    (columns_available : List String) : List String :=
  let request_columns := intersect_preserving_order_caseaware columns columns_available
  if py_lower search_col ∈ request_columns.map py_lower then request_columns
  else ((allowed_lookup columns_available (py_lower search_col)).getD search_col) :: request_columns

/-! ### Context rows and context text (query_cortex_search_service, lines 458-474) -/

/-- The content of one result row (line 463): the Python expression
`r.get(search_col) or r.get(search_col.lower()) or r.get(search_col.upper()) or ""`
(where `or` falls through on None and on the empty string). -/
def content_of (search_col : String) (r : Row) : String :=
  (pyOr (pyOr (r.get search_col) (r.get (py_lower search_col))) (r.get (py_upper search_col))).getD ""

/-- The `lines` list of the loop (line 471): one element per result row,
row i contributing the single string "Context document i: content" followed
by a newline character. -/
def context_lines (search_col : String) (results : List Row) : List String :=
  (results.enumFrom 1).map fun p =>
    "Context document " ++ toString p.1 ++ ": " ++ content_of search_col p.2 ++ "\n"

/-- The flattened context text (line 473): plain concatenation of the
lines, with no additional separator. -/
def context_text (search_col : String) (results : List Row) : String :=
  String.join (context_lines search_col results)

/-- The structured context rows of the same loop (lines 464-470). -/
def context_rows (search_col : String) (results : List Row) : List ContextRow :=
  (results.enumFrom 1).map fun p =>
    { idx := p.1
      relative_path := pyOr (p.2.get "relative_path") (p.2.get "RELATIVE_PATH")
      file_url := pyOr (p.2.get "file_url") (p.2.get "FILE_URL")
      chunk := content_of search_col p.2
      score := pyOr (p.2.get "score") (p.2.get "SCORE") }

/-! ### Completion step of main (lines 598-628) -/

/-- The error message rendered when the completion call raises
(line 604): the Python f-string with the exception text interpolated. -/
def completion_error_message (e : String) : String :=
  "モデル呼び出しでエラーが発生しました: " ++ e

/-- The final answer text (lines 601-604): the completion result on
success, the rendered error message when the call raised. The try/except
makes this total: no exception propagates. -/
def final_answer_text (completion : Except String String) : String :=
  match completion with
  | .ok t => t
  | .error e => completion_error_message e

/-- The tail of main for one submitted question (lines 598-628): compute
the final answer text (catching a completion failure), display it
(the string handed to stream_write_text), and append exactly one Turn to
the chat history. Returns the new history and the displayed text. -/
def process_question (chat_history : List Turn) (user_query : String)
    (ctx_rows : List ContextRow) (completion : Except String String)
    (model timestamp : String) : List Turn × String :=
  let final_text := final_answer_text completion
  let turn : Turn :=
    { timestamp := timestamp, question := user_query, answer := final_text
      model := model, contexts := ctx_rows }
  (chat_history ++ [turn], final_text)

/-! ### Service description (describe_cortex_service_properties, lines 163-178) -/

/-- Python dict insertion with overwrite, keeping first-insertion order for
an existing key (`props[key] = val`). -/
def dict_insert (d : List (String × String)) (k v : String) : List (String × String) :=
  if (d.lookup k).isSome then d.map (fun p => if p.1 = k then (k, v) else p)
  else d ++ [(k, v)]

/-- The property map built from the DESCRIBE result rows (lines 170-175):
key is the property / key / name field uppercased, value the
value / property_value / text field; empty keys are skipped. -/
def build_props (rows : List Row) : List (String × String) :=
  rows.foldl
    (fun props rd =>
      let key := py_upper (py_strip ((pyOr (pyOr (rd.get "property") (rd.get "key")) (rd.get "name")).getD ""))
      let val := py_strip ((pyOr (pyOr (rd.get "value") (rd.get "property_value")) (rd.get "text")).getD "")
      if key ≠ "" then dict_insert props key val else props)
    []

/-- Embedding of describe_cortex_service_properties: the whole body sits in
a try/except returning the empty mapping, so the function never raises.
The DESCRIBE statement outcome is the oracle `sqlRes` (`.error` models the
call raising). -/
def describe_cortex_service_properties (sqlRes : Except String (List Row)) :
    Except String (List (String × String)) :=
  match (do let rows ← sqlRes; pure (build_props rows) : Except String (List (String × String))) with
  | .ok props => .ok props
  | .error _ => .ok []

/-! ### Distinct values via search sampling (get_distinct_values_via_search, lines 222-254) -/

/-- The value of one sampled row (line 238):
`r.get(column) or r.get(column.lower()) or r.get(column.upper())`. -/
def row_val (column : String) (r : Row) : Option String :=
  pyOr (pyOr (r.get column) (r.get (py_lower column))) (r.get (py_upper column))

/-- The inner loop over one probe's results (lines 237-245), carrying the
cross-probe `seen` set and `values` accumulator; the loop breaks as soon as
`sample_size` values are held. Returns the updated (seen, values). -/
def collect_loop (column : String) (sample_size : Nat) :
    List Row → List String → List String → List String × List String
  | [], seen, values => (seen, values)
  | r :: rs, seen, values =>
    match row_val column r with
    | none => collect_loop column sample_size rs seen values
    | some v =>
      let s := py_strip v
      if s ≠ "" ∧ s ∉ seen then
        let seen1 := seen ++ [s]
        let values1 := values ++ [s]
        if sample_size ≤ values1.length then (seen1, values1)
        else collect_loop column sample_size rs seen1 values1
      else collect_loop column sample_size rs seen values

/-- The outer loop over the probe queries (lines 234-248): a probe whose
search raises is skipped (inner try/except `continue`); after a probe, if
any values have been collected the loop breaks (`if values: break`). The
oracle `searchFn` gives each probe query's search outcome. -/
def probe_loop (column : String) (sample_size : Nat)
    (searchFn : String → Except String (List Row)) :
    List String → List String → List String → List String
  | [], _, values => values
  | q :: qs, seen, values =>
    match searchFn q with
    | .error _ => probe_loop column sample_size searchFn qs seen values
    | .ok rows =>
      let p := collect_loop column sample_size rows seen values
      if p.2 ≠ [] then p.2 else probe_loop column sample_size searchFn qs p.1 p.2

/-- The probe queries tried in order (line 230): empty string, wildcard,
and common generic words. -/
def queries_to_try : List String := ["", "*", "a", "the", "の"]

/-- Embedding of get_distinct_values_via_search: resolving the service
handle may raise (oracle `svcRes`), which the enclosing try/except turns
into an empty list; otherwise the probe loop runs with empty seen/values.
The function never raises. -/
def get_distinct_values_via_search (svcRes : Except String Unit) (column : String)
    (sample_size : Nat) (searchFn : String → Except String (List Row)) :
    Except String (List String) :=
  match (do let _ ← svcRes
            pure (probe_loop column sample_size searchFn queries_to_try [] [])
          : Except String (List String)) with
  | .ok values => .ok values
  | .error _ => .ok []

/-! ### Distinct values, primary SQL path (get_distinct_values_for_column, lines 181-219) -/

/-- The service metadata dict as produced by load_cortex_services or the
manual-entry path; a `none` value of the whole dict models Python
`not meta` being true. -/
structure ServiceMeta where
  fq_name : String
  db : String
  schema : String
  short_name : String
  search_column : String
  columns_available : List String
deriving DecidableEq, Repr

/-- The de-duplication loop over the DISTINCT query rows (lines 205-212):
null values are skipped, values are stringified-trimmed and appended when
not already present. -/
def dedup_rows (rows : List (Option String)) : List String :=
  rows.foldl
    (fun values v =>
      match v with
      | none => values
      | some x =>
        let s := py_strip x
        if s ∉ values then values ++ [s] else values)
    []

/-- Embedding of get_distinct_values_for_column. Oracles: `describeRes`
for the DESCRIBE call, `sqlRes` for the DISTINCT query (first column of
each row, null as `none`), and `svcRes` / `searchFn` for the sampling
fallback. The primary path runs only when the description yields a target
table or a query text; any primary failure or empty primary result falls
through to the sampling fallback. -/
def get_distinct_values_for_column (meta : Option ServiceMeta) (column : String)
    (max_values : Nat) (describeRes : Except String (List Row))
    (sqlRes : Except String (List (Option String)))
    (svcRes : Except String Unit) (searchFn : String → Except String (List Row)) :
    Except String (List String) :=
  if meta = none ∨ column = "" then .ok []
  else
    match describe_cortex_service_properties describeRes with
    | .error e => .error e
    | .ok props =>
      let source_table := (pyOr (props.lookup "TARGET_TABLE") (props.lookup "SOURCE_TABLE")).getD ""
      let query_text := (pyOr (props.lookup "QUERY") (props.lookup "STATEMENT_TEXT")).getD ""
      let have_sql := source_table ≠ "" ∨ query_text ≠ ""
      let primary : List String :=
        if have_sql then
          match sqlRes with
          | .ok rows => dedup_rows rows
          | .error _ => []
        else []
      if primary ≠ [] then .ok primary
      else get_distinct_values_via_search svcRes column max_values searchFn

/-! ### Spec-stated variant of the sampling fallback (for refinement
comparison with the source behaviour) -/

/-- Spec-stated outer probe loop, following the specification words
"collecting de-duplicated non-null values until max_values sampled values
have been found or the probes are exhausted": probes keep being issued
while fewer than `sample_size` values are held, with no early stop after a
first productive probe. -/
def probe_loop_spec (column : String) (sample_size : Nat)
    (searchFn : String → Except String (List Row)) :
    List String → List String → List String → List String
  | [], _, values => values
  | q :: qs, seen, values =>
    if sample_size ≤ values.length then values
    else
      match searchFn q with
      | .error _ => probe_loop_spec column sample_size searchFn qs seen values
      | .ok rows =>
        let p := collect_loop column sample_size rows seen values
        probe_loop_spec column sample_size searchFn qs p.1 p.2

/-- Spec-stated variant of get_distinct_values_via_search, differing from
the source embedding only in using the spec-stated probe loop. -/
def get_distinct_values_via_search_spec (svcRes : Except String Unit) (column : String)
    (sample_size : Nat) (searchFn : String → Except String (List Row)) :
    Except String (List String) :=
  match (do let _ ← svcRes
            pure (probe_loop_spec column sample_size searchFn queries_to_try [] [])
          : Except String (List String)) with
  | .ok values => .ok values
  | .error _ => .ok []

/-- The per-probe result when the probe starts with nothing collected:
an erroring search contributes nothing, a successful one the values kept
by the inner loop from empty seen/values. -/
def probe_result (column : String) (sample_size : Nat)
    (searchFn : String → Except String (List Row)) (q : String) : List String :=
  match searchFn q with
  | .error _ => []
  | .ok rows => (collect_loop column sample_size rows [] []).2

/-- First non-empty element of a list of lists, or the empty list. -/
def first_productive (ls : List (List String)) : List String :=
  (ls.find? fun l => !l.isEmpty).getD []

/-! ### Context table rendering (render_context_table_md, lines 512-523) -/

/-- Python str.replace applied as `"...".replace("|", "\\|")` on a string
modelled as a character list: each pipe becomes backslash-pipe. -/
def escape_pipes (s : List Char) : List Char :=
  s.flatMap fun c => if c = '|' then ['\\', '|'] else [c]

/-- The truncated excerpt (line 518):
`(chunk[:160] + ellipsis) if len(chunk) > 160 else chunk`. -/
def head_of (chunk : List Char) : List Char :=
  if 160 < chunk.length then chunk.take 160 ++ ['…'] else chunk

/-- The excerpt cell as rendered in the markdown table (line 521):
the truncated excerpt with pipes escaped. -/
def head_disp (chunk : List Char) : List Char :=
  escape_pipes (head_of chunk)

/-! ### Sidebar filter state machine (init_sidebar lines 330-400 and
main lines 574-582) -/

/-- The manual-entry sentinel option (line 35). -/
def MANUAL_SENTINEL : String := "<手入力>"

/-- The filter-related slice of st.session_state. -/
structure FilterState where
  filter_enabled : Bool
  filter_column : String
  filter_value_options : List String
  filter_value_selected_key : String
  filter_value_manual : String
  last_service_key : Option String
  last_filter_column : Option String
deriving DecidableEq, Repr

/-- The per-rerun user interactions and oracle results consumed by the
filter section of the sidebar. `distinct_fetch` is the outcome of
get_distinct_values_for_column when it is (re-)invoked. -/
structure SidebarInput where
  toggle : Bool
  column_choice : Nat
  refresh_clicked : Bool
  value_choice : Nat
  manual_text : String
  distinct_fetch : List String
deriving DecidableEq, Repr

/-- Modelled from the spec: the host display surface's dropdown control
(spec section 6) returns one value out of the option set it was given;
the user's pick is modelled as an arbitrary index taken modulo the number
of options. -/
def pick_option (options : List String) (choice : Nat) : String :=
  options.getD (choice % options.length) ""

/-- One pass of the filter section of init_sidebar (lines 334-400) for the
active service: normalize the remembered filter column against the current
available columns (lines 336-340), read the toggle, and when filtering is
enabled run the column dropdown, the service/column change detection
(lines 363-372), the conditional refetch and reset of value state
(lines 374-380), the value dropdown and the manual-entry field
(lines 382-395). -/
def sidebar_filter_pass_enabled (meta_columns : List String) (svc_key : String)
    (s : FilterState) (inp : SidebarInput) : FilterState :=
  let col_opts := if meta_columns ≠ [] then meta_columns else [""]
  let fc1 := pick_option col_opts inp.column_choice
  let changed := s.last_service_key ≠ some svc_key ∨ s.last_filter_column ≠ some fc1
  let opts1 := if changed ∨ inp.refresh_clicked then inp.distinct_fetch
               else s.filter_value_options
  let man0 := if changed ∨ inp.refresh_clicked then "" else s.filter_value_manual
  let value_opts := "" :: MANUAL_SENTINEL :: opts1
  let key1 := pick_option value_opts inp.value_choice
  let man1 := if key1 = MANUAL_SENTINEL then inp.manual_text else man0
  { filter_enabled := true
    filter_column := fc1
    filter_value_options := opts1
    filter_value_selected_key := key1
    filter_value_manual := man1
    last_service_key := some svc_key
    last_filter_column := some fc1 }

def sidebar_filter_pass (meta_columns : List String) (svc_key : String)
    (s : FilterState) (inp : SidebarInput) : FilterState :=
  let fc0 := if meta_columns ≠ [] ∧ s.filter_column ∉ meta_columns
             then meta_columns.headD "" else s.filter_column
  if inp.toggle then sidebar_filter_pass_enabled meta_columns svc_key s inp
  else { s with filter_enabled := false, filter_column := fc0 }

/-- The filter actually applied when a question is submitted
(main, lines 574-582): present only when filtering is enabled, a column is
set, and the effective value (manual text under the sentinel, the selected
key otherwise) is non-empty. -/
def effective_filter (s : FilterState) : Option (String × String) :=
  if s.filter_enabled ∧ s.filter_column ≠ "" then
    let key := s.filter_value_selected_key
    let eff := if key = MANUAL_SENTINEL then s.filter_value_manual else key
    if eff ≠ "" then some (s.filter_column, eff) else none
  else none

/-! ## Claim theorems -/

/-- C1: for every conversation log and every non-negative integer k,
build_history_text returns exactly the last min(k, len(log)) turns in
chronological order (the selected turns are a suffix of the log of length
min(k, len(log))), each rendered as the two lines "User: question" and
"Assistant: answer", all joined by newlines; and if k = 0 or the log is
empty the result is the empty string. -/
theorem build_history_text_spec (log : List Turn) (k : Int) (hk : 0 ≤ k) :
    build_history_text log k =
      String.intercalate "\n"
        ((log.drop (log.length - k.toNat)).flatMap fun t =>
          ["User: " ++ t.question, "Assistant: " ++ t.answer])
    ∧ (log.drop (log.length - k.toNat)).length = min k.toNat log.length
    ∧ List.IsSuffix (log.drop (log.length - k.toNat)) log
    ∧ ((k = 0 ∨ log = []) → build_history_text log k = "") := by
  refine ⟨?_, ?_, List.drop_suffix _ _, ?_⟩
  · by_cases h : k ≤ 0 ∨ log = []
    · have hmain : build_history_text log k = "" := by
        simp only [build_history_text, if_pos h]
      rcases h with h0 | hnil
      · have : k = 0 := le_antisymm h0 hk
        subst this
        rw [hmain]
        simp only [Int.toNat_zero, Nat.sub_zero, List.drop_length, List.flatMap_nil]
        rfl
      · subst hnil
        rw [hmain]
        simp only [List.drop_nil, List.flatMap_nil]
        rfl
    · simp only [build_history_text, if_neg h]
  · rw [List.length_drop]
    omega
  · intro h
    have : k ≤ 0 ∨ log = [] := by
      rcases h with h | h
      · exact Or.inl (le_of_eq h)
      · exact Or.inr h
    simp only [build_history_text, if_pos this]

/-- Witness for C1 at a concrete log of three turns and k = 2: the last two
turns are selected. -/
theorem build_history_text_spec_witness :
    (0 : Int) ≤ 2 ∧
      build_history_text
        [⟨"t1", "q1", "a1", "m", []⟩, ⟨"t2", "q2", "a2", "m", []⟩,
         ⟨"t3", "q3", "a3", "m", []⟩] 2 =
        String.intercalate "\n"
          (([⟨"t1", "q1", "a1", "m", []⟩, ⟨"t2", "q2", "a2", "m", []⟩,
             (⟨"t3", "q3", "a3", "m", []⟩ : Turn)].drop
              ([⟨"t1", "q1", "a1", "m", []⟩, ⟨"t2", "q2", "a2", "m", []⟩,
                (⟨"t3", "q3", "a3", "m", []⟩ : Turn)].length - (2 : Int).toNat)).flatMap
            fun t => ["User: " ++ t.question, "Assistant: " ++ t.answer]) :=
  ⟨by decide, (build_history_text_spec _ 2 (by decide)).1⟩

/-- C2: the effective request column list always contains the descriptor
search column (up to the case-insensitive comparison the code itself uses,
the listed entry carrying the available-column casing), and on the
spec scenario — requested [chunk, file_url, relative_path], available
[CHUNK, FILE_URL], search column chunk — it is exactly [CHUNK, FILE_URL]. -/
theorem effective_request_columns_contain_search_col :
    (∀ (columns : List String) (search_col : String) (columns_available : List String),
      ∃ c ∈ effective_request_columns columns search_col columns_available,
        py_lower c = py_lower search_col)
    ∧ effective_request_columns ["chunk", "file_url", "relative_path"] "chunk"
        ["CHUNK", "FILE_URL"] = ["CHUNK", "FILE_URL"] := by
  constructor
  · intro columns search_col columns_available
    unfold effective_request_columns
    by_cases h : py_lower search_col ∈
        (intersect_preserving_order_caseaware columns columns_available).map py_lower
    · simp only [if_pos h]
      obtain ⟨c, hc, hcl⟩ := List.mem_map.mp h
      exact ⟨c, hc, hcl⟩
    · simp only [if_neg h]
      refine ⟨(allowed_lookup columns_available (py_lower search_col)).getD search_col,
        List.mem_cons_self _ _, ?_⟩
      cases hfind : allowed_lookup columns_available (py_lower search_col) with
      | none => simp
      | some a =>
        have ha := List.find?_some hfind
        simp only [decide_eq_true_eq] at ha
        simpa using ha
  · decide

/-- C10: with an empty available-columns list the effective request column
list is exactly the singleton of the search column in its own spelling
(neither empty nor a failure). -/
theorem effective_request_columns_empty_available (columns : List String)
    (search_col : String) :
    effective_request_columns columns search_col [] = [search_col] := by
  have hint : ∀ cs seen, intersect_go [] cs seen = [] := by
    intro cs
    induction cs with
    | nil => intro seen; rfl
    | cons c cs ih =>
      intro seen
      simp only [intersect_go, allowed_lookup, List.reverse_nil, List.find?_nil]
      exact ih seen
  unfold effective_request_columns intersect_preserving_order_caseaware
  rw [hint]
  simp [allowed_lookup]

/-- C3: the `lines` list built by the retrieval adapter has one element
per retrieved row; element i (0-based here, the label being i+1) is
exactly "Context document i+1: text" followed by a newline; and the
flattened context text is the plain concatenation of those lines with no
other separator. -/
theorem context_text_spec (search_col : String) (results : List Row) :
    (context_lines search_col results).length = results.length
    ∧ (∀ i, i < results.length →
        (context_lines search_col results).getD i "" =
          "Context document " ++ toString (i + 1) ++ ": "
            ++ content_of search_col (results.getD i ([] : Row)) ++ "\n")
    ∧ context_text search_col results = String.join (context_lines search_col results) := by
  refine ⟨?_, ?_, rfl⟩
  · simp [context_lines, List.enumFrom_length]
  · intro i hi
    have h1 : results[i]? = some results[i] := List.getElem?_eq_getElem hi
    rw [List.getD_eq_getElem?_getD, List.getD_eq_getElem?_getD]
    unfold context_lines
    rw [List.getElem?_map, List.getElem?_enumFrom, h1]
    simp [Nat.add_comm 1 i]

/-- C4: for every submitted question whose completion call raises, exactly
one Turn is appended to the log, its answer field is the rendered error
message, and that same string is what is displayed; and (no propagation)
for ANY completion outcome the step is total and appends exactly one
Turn. -/
theorem process_question_error_spec :
    (∀ (log : List Turn) (q : String) (ctx : List ContextRow)
        (res : Except String String) (m ts : String),
      (process_question log q ctx res m ts).1.length = log.length + 1
      ∧ (process_question log q ctx res m ts).1 =
          log ++ [⟨ts, q, final_answer_text res, m, ctx⟩]
      ∧ (process_question log q ctx res m ts).2 = final_answer_text res)
    ∧ (∀ (log : List Turn) (q : String) (ctx : List ContextRow)
        (e m ts : String),
      (process_question log q ctx (.error e) m ts).1 =
          log ++ [⟨ts, q, completion_error_message e, m, ctx⟩]
      ∧ (process_question log q ctx (.error e) m ts).2 = completion_error_message e) := by
  constructor
  · intro log q ctx res m ts
    refine ⟨?_, rfl, rfl⟩
    simp [process_question]
  · intro log q ctx e m ts
    exact ⟨rfl, rfl⟩

/-- Helper: a successful allowed_lookup returns an element of the allowed
list whose lowercasing is the key. -/
theorem allowed_lookup_mem {allowed : List String} {lc a : String}
    (h : allowed_lookup allowed lc = some a) : a ∈ allowed ∧ py_lower a = lc := by
  unfold allowed_lookup at h
  refine ⟨List.mem_reverse.mp (List.mem_of_find?_eq_some h), ?_⟩
  have hp := List.find?_some h
  simpa using hp

/-- Helper: the intersection loop's output is a sublist of the
candidate-ordered list of matched allowed entries, whatever the seen set. -/
theorem intersect_go_sublist (allowed : List String) :
    ∀ (cs seen : List String),
      (intersect_go allowed cs seen).Sublist
        (cs.filterMap fun c => allowed_lookup allowed (py_lower c)) := by
  intro cs
  induction cs with
  | nil => intro seen; simp [intersect_go]
  | cons c cs ih =>
    intro seen
    rw [List.filterMap_cons]
    cases hl : allowed_lookup allowed (py_lower c) with
    | none =>
      simpa only [intersect_go, hl] using ih seen
    | some a =>
      simp only [intersect_go, hl]
      by_cases hm : a ∈ seen
      · rw [if_pos hm]
        exact (ih seen).cons a
      · rw [if_neg hm]
        exact (ih (a :: seen)).cons₂ a

/-- Helper: membership in the intersection loop's output: exactly the
matched allowed entries of candidates not already seen. -/
theorem mem_intersect_go {allowed : List String} {x : String} :
    ∀ (cs seen : List String),
      (x ∈ intersect_go allowed cs seen ↔
        x ∉ seen ∧ ∃ c ∈ cs, allowed_lookup allowed (py_lower c) = some x) := by
  intro cs
  induction cs with
  | nil => intro seen; simp [intersect_go]
  | cons c cs ih =>
    intro seen
    cases hl : allowed_lookup allowed (py_lower c) with
    | none =>
      simp only [intersect_go, hl]
      rw [ih seen]
      constructor
      · rintro ⟨hns, c1, hc1, hl1⟩
        exact ⟨hns, c1, List.mem_cons_of_mem _ hc1, hl1⟩
      · rintro ⟨hns, c1, hc1, hl1⟩
        rcases List.mem_cons.mp hc1 with rfl | hc1
        · rw [hl] at hl1
          cases hl1
        · exact ⟨hns, c1, hc1, hl1⟩
    | some a =>
      simp only [intersect_go, hl]
      by_cases hm : a ∈ seen
      · rw [if_pos hm, ih seen]
        constructor
        · rintro ⟨hns, c1, hc1, hl1⟩
          exact ⟨hns, c1, List.mem_cons_of_mem _ hc1, hl1⟩
        · rintro ⟨hns, c1, hc1, hl1⟩
          rcases List.mem_cons.mp hc1 with rfl | hc1
          · rw [hl] at hl1
            injection hl1 with h2
            exact absurd (h2 ▸ hm) hns
          · exact ⟨hns, c1, hc1, hl1⟩
      · rw [if_neg hm]
        rw [List.mem_cons, ih (a :: seen)]
        constructor
        · rintro (rfl | ⟨hns, c1, hc1, hl1⟩)
          · exact ⟨hm, c, List.mem_cons_self c cs, hl⟩
          · have hxs : x ∉ seen := fun hx => hns (List.mem_cons_of_mem _ hx)
            exact ⟨hxs, c1, List.mem_cons_of_mem _ hc1, hl1⟩
        · rintro ⟨hns, c1, hc1, hl1⟩
          rcases List.mem_cons.mp hc1 with rfl | hc1
          · rw [hl] at hl1
            injection hl1 with h2
            exact Or.inl h2.symm
          · by_cases hxa : x = a
            · exact Or.inl hxa
            · refine Or.inr ⟨?_, c1, hc1, hl1⟩
              intro hx
              rcases List.mem_cons.mp hx with h | h
              · exact hxa h
              · exact hns h

/-- Helper: the intersection loop's output has no duplicates. -/
theorem intersect_go_nodup (allowed : List String) :
    ∀ (cs seen : List String), (intersect_go allowed cs seen).Nodup := by
  intro cs
  induction cs with
  | nil => intro seen; simp [intersect_go]
  | cons c cs ih =>
    intro seen
    cases hl : allowed_lookup allowed (py_lower c) with
    | none =>
      simpa only [intersect_go, hl] using ih seen
    | some a =>
      simp only [intersect_go, hl]
      by_cases hm : a ∈ seen
      · rw [if_pos hm]
        exact ih seen
      · rw [if_neg hm]
        refine List.nodup_cons.mpr ⟨?_, ih (a :: seen)⟩
        intro ha
        exact ((mem_intersect_go cs (a :: seen)).mp ha).1 (List.mem_cons_self a seen)

/-- C5: the case-aware order-preserving intersection (1) preserves the
relative order of candidates — the output is a sublist of the
candidate-ordered list of matched allowed entries, (2) holds each matched
allowed entry (in the allowed list's original casing, as returned by the
allowed-map lookup) exactly once — no duplicates, membership exactly the
matched entries, and (3) holds nothing absent from the allowed list — each
output element is literally an element of allowed, matched
case-insensitively by some candidate. -/
theorem intersect_preserving_order_caseaware_spec (candidates allowed : List String) :
    (intersect_preserving_order_caseaware candidates allowed).Sublist
        (candidates.filterMap fun c => allowed_lookup allowed (py_lower c))
    ∧ (intersect_preserving_order_caseaware candidates allowed).Nodup
    ∧ (∀ x, x ∈ intersect_preserving_order_caseaware candidates allowed ↔
          ∃ c ∈ candidates, allowed_lookup allowed (py_lower c) = some x)
    ∧ (∀ x ∈ intersect_preserving_order_caseaware candidates allowed,
        x ∈ allowed ∧ ∃ c ∈ candidates, py_lower x = py_lower c) := by
  refine ⟨intersect_go_sublist allowed candidates [],
    intersect_go_nodup allowed candidates [], ?_, ?_⟩
  · intro x
    unfold intersect_preserving_order_caseaware
    rw [mem_intersect_go candidates []]
    simp
  · intro x hx
    obtain ⟨c, hc, hl⟩ :=
      ((mem_intersect_go candidates []).mp hx).2
    obtain ⟨hmem, hlow⟩ := allowed_lookup_mem hl
    exact ⟨hmem, c, hc, hlow⟩

/-- Helper: describe_cortex_service_properties always returns normally,
with the built property map on success and the empty map on a raising
DESCRIBE call. -/
theorem describe_props_eq (sqlRes : Except String (List Row)) :
    describe_cortex_service_properties sqlRes =
      .ok (match sqlRes with
           | .ok rows => build_props rows
           | .error _ => []) := by
  cases sqlRes <;> rfl

/-- Helper: get_distinct_values_via_search always returns normally, with
the probe-loop result on a resolvable service and the empty list when the
service resolution raises. -/
theorem via_search_eq (svcRes : Except String Unit) (column : String)
    (sample_size : Nat) (searchFn : String → Except String (List Row)) :
    get_distinct_values_via_search svcRes column sample_size searchFn =
      .ok (match svcRes with
           | .ok _ => probe_loop column sample_size searchFn queries_to_try [] []
           | .error _ => []) := by
  cases svcRes <;> rfl

/-- Helper: an if-expression between a plain .ok and an expression known
to be .ok is .ok. -/
theorem exists_ok_ite (c : Prop) [Decidable c] (l : List String)
    (r : Except String (List String)) (hr : ∃ v, r = .ok v) :
    ∃ v, (if c then Except.ok l else r) = .ok v := by
  by_cases h : c
  · rw [if_pos h]
    exact ⟨l, rfl⟩
  · rw [if_neg h]
    exact hr

/-- C6: the service-description lookup and both distinct-value resolution
paths never raise to the caller: for every oracle outcome each function
returns normally, and a failing DESCRIBE yields the empty mapping, a
failing service resolution yields the empty list, and all oracles failing
at once yields the empty list from the combined resolver. -/
theorem distinct_value_resolution_never_raises :
    (∀ sqlRes, ∃ props, describe_cortex_service_properties sqlRes = .ok props)
    ∧ (∀ e, describe_cortex_service_properties (.error e) = .ok [])
    ∧ (∀ (svcRes : Except String Unit) column sample_size searchFn,
        ∃ values, get_distinct_values_via_search svcRes column sample_size searchFn
          = .ok values)
    ∧ (∀ e column sample_size searchFn,
        get_distinct_values_via_search (.error e) column sample_size searchFn = .ok [])
    ∧ (∀ meta column max_values describeRes sqlRes svcRes searchFn,
        ∃ values, get_distinct_values_for_column meta column max_values describeRes
          sqlRes svcRes searchFn = .ok values)
    ∧ (∀ meta column max_values e1 e2 e3 searchFn,
        get_distinct_values_for_column meta column max_values (.error e1) (.error e2)
          (.error e3) searchFn = .ok []) := by
  refine ⟨fun sqlRes => ⟨_, describe_props_eq sqlRes⟩, fun e => rfl,
    fun svcRes column n fn => ⟨_, via_search_eq svcRes column n fn⟩, fun e column n fn => rfl,
    ?_, ?_⟩
  · intro meta column mv dRes sRes vRes fn
    unfold get_distinct_values_for_column
    by_cases h : meta = none ∨ column = ""
    · rw [if_pos h]
      exact ⟨[], rfl⟩
    · rw [if_neg h]
      rw [describe_props_eq]
      cases dRes with
      | error e =>
        exact exists_ok_ite _ _ _ ⟨_, via_search_eq vRes column mv fn⟩
      | ok rows =>
        exact exists_ok_ite _ _ _ ⟨_, via_search_eq vRes column mv fn⟩
  · intro meta column mv e1 e2 e3 fn
    unfold get_distinct_values_for_column
    by_cases h : meta = none ∨ column = ""
    · rw [if_pos h]
    · rw [if_neg h]
      rfl

/-- Helper: the inner collection loop only ever appends, and appends the
same new values to seen and to values. -/
theorem collect_loop_delta (column : String) (n : Nat) :
    ∀ (rows : List Row) (seen values : List String),
      ∃ d, collect_loop column n rows seen values = (seen ++ d, values ++ d) := by
  intro rows
  induction rows with
  | nil =>
    intro seen values
    exact ⟨[], by simp [collect_loop]⟩
  | cons r rs ih =>
    intro seen values
    unfold collect_loop
    cases hv : row_val column r with
    | none => exact ih seen values
    | some v =>
      dsimp only
      by_cases hs : py_strip v ≠ "" ∧ py_strip v ∉ seen
      · rw [if_pos hs]
        by_cases hn : n ≤ (values ++ [py_strip v]).length
        · rw [if_pos hn]
          exact ⟨[py_strip v], rfl⟩
        · rw [if_neg hn]
          obtain ⟨d, hd⟩ := ih (seen ++ [py_strip v]) (values ++ [py_strip v])
          refine ⟨py_strip v :: d, ?_⟩
          rw [hd]
          simp
      · rw [if_neg hs]
        exact ih seen values

/-- Helper: the inner collection loop preserves the invariant that the
collected values are duplicate-free, all seen, and all non-empty. -/
theorem collect_loop_inv (column : String) (n : Nat) :
    ∀ (rows : List Row) (seen values : List String),
      values.Nodup → (∀ x ∈ values, x ∈ seen) → (∀ x ∈ values, x ≠ "") →
      ((collect_loop column n rows seen values).2.Nodup
        ∧ (∀ x ∈ (collect_loop column n rows seen values).2, x ≠ "")) := by
  intro rows
  induction rows with
  | nil =>
    intro seen values h1 _h2 h3
    exact ⟨h1, h3⟩
  | cons r rs ih =>
    intro seen values h1 h2 h3
    unfold collect_loop
    cases hv : row_val column r with
    | none => exact ih seen values h1 h2 h3
    | some v =>
      dsimp only
      by_cases hs : py_strip v ≠ "" ∧ py_strip v ∉ seen
      · rw [if_pos hs]
        have hnv : py_strip v ∉ values := fun hx => hs.2 (h2 _ hx)
        have h1a : (values ++ [py_strip v]).Nodup := by
          simp [List.nodup_append, h1, hnv]
        have h2a : ∀ x ∈ values ++ [py_strip v], x ∈ seen ++ [py_strip v] := by
          intro x hx
          rcases List.mem_append.mp hx with hx | hx
          · exact List.mem_append.mpr (Or.inl (h2 _ hx))
          · exact List.mem_append.mpr (Or.inr hx)
        have h3a : ∀ x ∈ values ++ [py_strip v], x ≠ "" := by
          intro x hx
          rcases List.mem_append.mp hx with hx | hx
          · exact h3 _ hx
          · rw [List.mem_singleton.mp hx]
            exact hs.1
        by_cases hn : n ≤ (values ++ [py_strip v]).length
        · rw [if_pos hn]
          exact ⟨h1a, h3a⟩
        · rw [if_neg hn]
          exact ih _ _ h1a h2a h3a
      · rw [if_neg hs]
        exact ih seen values h1 h2 h3

/-- Helper: the inner collection loop never exceeds the cap while fewer
than sample_size values are held. -/
theorem collect_loop_cap (column : String) (n : Nat) :
    ∀ (rows : List Row) (seen values : List String),
      values.length < n → (collect_loop column n rows seen values).2.length ≤ n := by
  intro rows
  induction rows with
  | nil =>
    intro seen values h
    exact le_of_lt h
  | cons r rs ih =>
    intro seen values h
    unfold collect_loop
    cases hv : row_val column r with
    | none => exact ih seen values h
    | some v =>
      dsimp only
      by_cases hs : py_strip v ≠ "" ∧ py_strip v ∉ seen
      · rw [if_pos hs]
        by_cases hn : n ≤ (values ++ [py_strip v]).length
        · rw [if_pos hn]
          simp only [List.length_append, List.length_singleton]
          omega
        · rw [if_neg hn]
          have hl1 : (values ++ [py_strip v]).length = values.length + 1 := by simp
          refine ih _ _ ?_
          rw [hl1]
          rw [hl1] at hn
          omega
      · rw [if_neg hs]
        exact ih seen values h

/-- Helper: first_productive of a cons. -/
theorem first_productive_cons (l : List String) (ls : List (List String)) :
    first_productive (l :: ls) = if l = [] then first_productive ls else l := by
  by_cases h : l = []
  · subst h
    simp [first_productive]
  · simp [first_productive, List.find?_cons, List.isEmpty_iff, h]

/-- Helper: first_productive returns the empty list or a member. -/
theorem first_productive_mem_or_nil (ls : List (List String)) :
    first_productive ls = [] ∨ first_productive ls ∈ ls := by
  unfold first_productive
  cases hf : ls.find? (fun l => !l.isEmpty) with
  | none => exact Or.inl rfl
  | some l => exact Or.inr (List.mem_of_find?_eq_some hf)

/-- Helper: started empty, the probe loop returns exactly the first
productive probe's processed values: unproductive probes leave seen and
values empty (collect_loop_delta), and a productive probe ends the loop. -/
theorem probe_loop_first_productive (column : String) (n : Nat)
    (searchFn : String → Except String (List Row)) :
    ∀ (qs : List String),
      probe_loop column n searchFn qs [] [] =
        first_productive (qs.map (probe_result column n searchFn)) := by
  intro qs
  induction qs with
  | nil => rfl
  | cons q qs ih =>
    rw [List.map_cons, first_productive_cons]
    unfold probe_loop
    cases hq : searchFn q with
    | error e =>
      have hpr : probe_result column n searchFn q = [] := by
        simp [probe_result, hq]
      rw [hpr, if_pos rfl]
      exact ih
    | ok rows =>
      have hpr : probe_result column n searchFn q = (collect_loop column n rows [] []).2 := by
        simp [probe_result, hq]
      obtain ⟨d, hd⟩ := collect_loop_delta column n rows [] []
      simp only [List.nil_append] at hd
      dsimp only
      rw [hpr, hd]
      dsimp only
      by_cases hnil : d = []
      · subst hnil
        rw [if_neg (by simp), if_pos rfl]
        exact ih
      · rw [if_pos hnil, if_neg hnil]

/-- Helper: each probe's processed result is duplicate-free, free of empty
values, and capped at sample_size. -/
theorem probe_result_spec (column : String) (n : Nat)
    (searchFn : String → Except String (List Row)) (q : String) :
    (probe_result column n searchFn q).Nodup
    ∧ (∀ x ∈ probe_result column n searchFn q, x ≠ "")
    ∧ (1 ≤ n → (probe_result column n searchFn q).length ≤ n) := by
  unfold probe_result
  cases hq : searchFn q with
  | error e => simp
  | ok rows =>
    obtain ⟨h1, h3⟩ :=
      collect_loop_inv column n rows [] [] (by simp) (by simp) (by simp)
    exact ⟨h1, h3, fun hn => collect_loop_cap column n rows [] [] (by simpa using hn)⟩

/-- The concrete sampling oracle of the C7 counterexample: probe "" yields
one row with value x, probe "*" one row with value y, all other probes
nothing. -/
def sample_search_fn : String → Except String (List Row) := fun q =>
  if q = "" then .ok [[("c", "x")]]
  else if q = "*" then .ok [[("c", "y")]]
  else .ok []

/-- C7 counterexample: under the claim's stopping rule (collect until
max_values found or probes exhausted, here max_values = 200) the collected
values would be [x, y], but the code stops after the first productive
probe and returns [x]. -/
theorem sampling_fallback_counterexample :
    get_distinct_values_via_search (.ok ()) "c" 200 sample_search_fn = .ok ["x"]
    ∧ get_distinct_values_via_search_spec (.ok ()) "c" 200 sample_search_fn = .ok ["x", "y"]
    ∧ (["x"] : List String) ≠ ["x", "y"] := by
  exact ⟨rfl, rfl, by decide⟩

/-- C7 amended: the fallback issues the sample searches with the probe
terms in order and returns the de-duplicated non-empty values (capped at
max_values) of the FIRST probe that yields any value — stopping there
rather than continuing until max_values values are found — and the empty
list when no probe yields values. -/
theorem sampling_fallback_first_productive (column : String) (sample_size : Nat)
    (searchFn : String → Except String (List Row)) :
    get_distinct_values_via_search (.ok ()) column sample_size searchFn =
      .ok (first_productive (queries_to_try.map (probe_result column sample_size searchFn)))
    ∧ (first_productive
        (queries_to_try.map (probe_result column sample_size searchFn))).Nodup
    ∧ (∀ x ∈ first_productive
          (queries_to_try.map (probe_result column sample_size searchFn)), x ≠ "")
    ∧ (1 ≤ sample_size →
        (first_productive
          (queries_to_try.map (probe_result column sample_size searchFn))).length
            ≤ sample_size) := by
  have heq : get_distinct_values_via_search (.ok ()) column sample_size searchFn =
      .ok (probe_loop column sample_size searchFn queries_to_try [] []) := rfl
  rw [heq, probe_loop_first_productive]
  refine ⟨rfl, ?_⟩
  rcases first_productive_mem_or_nil
      (queries_to_try.map (probe_result column sample_size searchFn)) with h | h
  · rw [h]
    exact ⟨List.nodup_nil, by simp, fun _ => by simp⟩
  · obtain ⟨q, _hq, hl⟩ := List.mem_map.mp h
    obtain ⟨h1, h2, h3⟩ := probe_result_spec column sample_size searchFn q
    rw [← hl]
    exact ⟨h1, h2, h3⟩

/-- Helper: pipe escaping distributes over append. -/
theorem escape_pipes_append (a b : List Char) :
    escape_pipes (a ++ b) = escape_pipes a ++ escape_pipes b := by
  simp [escape_pipes]

/-- Helper: pipe escaping leaves a pipe-free string unchanged. -/
theorem escape_pipes_of_no_pipe (l : List Char) (h : '|' ∉ l) : escape_pipes l = l := by
  induction l with
  | nil => rfl
  | cons c cs ih =>
    have hc : c ≠ '|' := fun hc => h (hc ▸ List.mem_cons_self c cs)
    have hcs : '|' ∉ cs := fun hx => h (List.mem_cons_of_mem _ hx)
    simp [escape_pipes, hc] at ih ⊢
    exact ih hcs

set_option maxRecDepth 4000 in
/-- C8 counterexample: a 161-character chunk whose first character is a
pipe: it is longer than 160 characters, but the rendered excerpt cell is
162 characters long (the escaped pipe renders as two characters), not
exactly 161 as the claim states. -/
theorem rendered_excerpt_length_counterexample :
    160 < ('|' :: List.replicate 160 'a').length
    ∧ (head_disp ('|' :: List.replicate 160 'a')).length = 162
    ∧ (head_disp ('|' :: List.replicate 160 'a')).length ≠ 161 := by
  refine ⟨by decide, by decide, by decide⟩

/-- C8 amended: for a chunk longer than 160 characters the truncated
excerpt (before pipe escaping) is the first 160 characters plus an
ellipsis — exactly 161 characters — and the rendered cell is that excerpt
with pipes escaped, still ending in the ellipsis, and exactly 161
characters whenever the kept 160-character prefix contains no pipe; a
chunk of at most 160 characters renders unchanged except for pipe
escaping. -/
theorem rendered_excerpt_truncation (chunk : List Char) :
    (160 < chunk.length →
      head_of chunk = chunk.take 160 ++ ['…']
      ∧ (head_of chunk).length = 161
      ∧ head_disp chunk = escape_pipes (chunk.take 160) ++ ['…']
      ∧ (head_disp chunk).getLast? = some '…'
      ∧ ('|' ∉ chunk.take 160 → (head_disp chunk).length = 161))
    ∧ (chunk.length ≤ 160 → head_disp chunk = escape_pipes chunk) := by
  constructor
  · intro h
    have h1 : head_of chunk = chunk.take 160 ++ ['…'] := by
      unfold head_of
      rw [if_pos h]
    have htake : (chunk.take 160).length = 160 := by
      rw [List.length_take]
      omega
    have h2 : (head_of chunk).length = 161 := by
      rw [h1, List.length_append, htake]
      rfl
    have h3 : head_disp chunk = escape_pipes (chunk.take 160) ++ ['…'] := by
      unfold head_disp
      rw [h1, escape_pipes_append]
      rfl
    refine ⟨h1, h2, h3, ?_, ?_⟩
    · rw [h3]
      exact List.getLast?_concat _
    · intro hnp
      rw [h3, List.length_append, escape_pipes_of_no_pipe _ hnp, htake]
      rfl
  · intro h
    unfold head_disp head_of
    rw [if_neg (by omega)]

/-- Helper: the modelled dropdown returns one of its options whenever any
exist. -/
theorem pick_option_mem (options : List String) (choice : Nat) (h : options ≠ []) :
    pick_option options choice ∈ options := by
  unfold pick_option
  have hlen : 0 < options.length := List.length_pos.mpr h
  have hlt : choice % options.length < options.length := Nat.mod_lt _ hlen
  rw [List.getD_eq_getElem?_getD, List.getElem?_eq_getElem hlt]
  exact List.getElem_mem hlt

/-- C9 counterexample: the selected service keeps its key S while its
column set changes from [A, B] to [A]; the previously selected filter
column A stays valid under the new set, so the change detection (keyed on
service key and filter column only) fires on neither key: the stale value
options [old1] survive — the fresh fetch [new1] is never taken up — and
the stale value old1 is applied, so a column-set change alone invalidates
and re-resolves nothing. -/
theorem filter_invalidation_counterexample :
    (["A", "B"] : List String) ≠ ["A"]
    ∧ sidebar_filter_pass ["A"] "S"
        (sidebar_filter_pass ["A", "B"] "S"
          ⟨false, "", [], "", "", none, none⟩ ⟨true, 0, false, 2, "", ["old1"]⟩)
        ⟨true, 0, false, 2, "", ["new1"]⟩
      = ⟨true, "A", ["old1"], "old1", "", some "S", some "A"⟩
    ∧ effective_filter
        (sidebar_filter_pass ["A"] "S"
          (sidebar_filter_pass ["A", "B"] "S"
            ⟨false, "", [], "", "", none, none⟩ ⟨true, 0, false, 2, "", ["old1"]⟩)
          ⟨true, 0, false, 2, "", ["new1"]⟩)
      = some ("A", "old1")
    ∧ (["old1"] : List String) ≠ ["new1"] := by
  exact ⟨by decide, by decide, by decide, by decide⟩

/-- C9 amended: (1) at every point where a filter is applied, the applied
column is an element of the active descriptor's available columns (hence
a case-insensitive member, as the claim's invariant states); (2) the
re-resolution trigger is the pair (service key, selected filter column) —
not the column set itself: whenever either changes, the value options are
refetched and any applied value comes from the fresh options or from
manual entry. -/
theorem filter_spec_invariant (meta_columns : List String) (svc_key : String)
    (s : FilterState) (inp : SidebarInput) :
    (∀ col v,
      effective_filter (sidebar_filter_pass meta_columns svc_key s inp) = some (col, v) →
        col ∈ meta_columns ∧ ∃ a ∈ meta_columns, py_lower a = py_lower col)
    ∧ ((inp.toggle = true ∧
          (s.last_service_key ≠ some svc_key ∨
            s.last_filter_column ≠
              some (sidebar_filter_pass meta_columns svc_key s inp).filter_column)) →
        (sidebar_filter_pass meta_columns svc_key s inp).filter_value_options
            = inp.distinct_fetch
        ∧ ∀ col v,
            effective_filter (sidebar_filter_pass meta_columns svc_key s inp)
                = some (col, v) →
              v = inp.manual_text ∨ v ∈ inp.distinct_fetch) := by
  cases htog : inp.toggle with
  | false =>
    constructor
    · intro col v h
      simp [sidebar_filter_pass, htog, effective_filter] at h
    · rintro ⟨ht, _⟩
      exact absurd ht (by simp)
  | true =>
    have hpass : sidebar_filter_pass meta_columns svc_key s inp =
        sidebar_filter_pass_enabled meta_columns svc_key s inp := by
      simp [sidebar_filter_pass, htog]
    rw [hpass]
    constructor
    · intro col v h
      unfold effective_filter at h
      by_cases hcond : (sidebar_filter_pass_enabled meta_columns svc_key s inp).filter_enabled
          ∧ (sidebar_filter_pass_enabled meta_columns svc_key s inp).filter_column ≠ ""
      · rw [if_pos hcond] at h
        by_cases heff : (if (sidebar_filter_pass_enabled meta_columns svc_key s inp).filter_value_selected_key = MANUAL_SENTINEL
              then (sidebar_filter_pass_enabled meta_columns svc_key s inp).filter_value_manual
              else (sidebar_filter_pass_enabled meta_columns svc_key s inp).filter_value_selected_key) ≠ ""
        · rw [if_pos heff] at h
          have hcol : col = (sidebar_filter_pass_enabled meta_columns svc_key s inp).filter_column := by
            have := (Option.some.injEq _ _).mp h
            exact (congrArg Prod.fst this).symm
          by_cases hmc : meta_columns = []
          · exfalso
            apply hcond.2
            rw [hmc]
            show pick_option [""] inp.column_choice = ""
            simp [pick_option, Nat.mod_one]
          · have hmem : (sidebar_filter_pass_enabled meta_columns svc_key s inp).filter_column
                ∈ meta_columns := by
              have hcols : (sidebar_filter_pass_enabled meta_columns svc_key s inp).filter_column
                  = pick_option (if meta_columns ≠ [] then meta_columns else [""])
                      inp.column_choice := rfl
              rw [hcols, if_pos hmc]
              exact pick_option_mem meta_columns inp.column_choice hmc
            rw [hcol]
            exact ⟨hmem, _, hmem, rfl⟩
        · rw [if_neg heff] at h
          cases h
      · rw [if_neg hcond] at h
        cases h
    · rintro ⟨_, hch⟩
      have hchanged : s.last_service_key ≠ some svc_key ∨
          s.last_filter_column ≠
            some (pick_option (if meta_columns ≠ [] then meta_columns else [""])
              inp.column_choice) := hch
      have hopts : (sidebar_filter_pass_enabled meta_columns svc_key s inp).filter_value_options
          = inp.distinct_fetch := by
        show (if (s.last_service_key ≠ some svc_key ∨
                s.last_filter_column ≠
                  some (pick_option (if meta_columns ≠ [] then meta_columns else [""])
                    inp.column_choice)) ∨ inp.refresh_clicked
              then inp.distinct_fetch else s.filter_value_options) = inp.distinct_fetch
        rw [if_pos (Or.inl hchanged)]
      refine ⟨hopts, ?_⟩
      intro col v h
      unfold effective_filter at h
      by_cases hcond : (sidebar_filter_pass_enabled meta_columns svc_key s inp).filter_enabled
          ∧ (sidebar_filter_pass_enabled meta_columns svc_key s inp).filter_column ≠ ""
      · rw [if_pos hcond] at h
        by_cases heff : (if (sidebar_filter_pass_enabled meta_columns svc_key s inp).filter_value_selected_key = MANUAL_SENTINEL
              then (sidebar_filter_pass_enabled meta_columns svc_key s inp).filter_value_manual
              else (sidebar_filter_pass_enabled meta_columns svc_key s inp).filter_value_selected_key) ≠ ""
        · rw [if_pos heff] at h
          have hv : v = (if (sidebar_filter_pass_enabled meta_columns svc_key s inp).filter_value_selected_key = MANUAL_SENTINEL
              then (sidebar_filter_pass_enabled meta_columns svc_key s inp).filter_value_manual
              else (sidebar_filter_pass_enabled meta_columns svc_key s inp).filter_value_selected_key) :=
            ((Prod.mk.injEq _ _ _ _).mp ((Option.some.injEq _ _).mp h)).2.symm
          by_cases hkey : (sidebar_filter_pass_enabled meta_columns svc_key s inp).filter_value_selected_key
              = MANUAL_SENTINEL
          · left
            rw [hv, if_pos hkey]
            have hman : (sidebar_filter_pass_enabled meta_columns svc_key s inp).filter_value_manual =
                if (sidebar_filter_pass_enabled meta_columns svc_key s inp).filter_value_selected_key
                    = MANUAL_SENTINEL
                then inp.manual_text
                else if (s.last_service_key ≠ some svc_key ∨
                      s.last_filter_column ≠
                        some (pick_option
                          (if meta_columns ≠ [] then meta_columns else [""])
                          inp.column_choice)) ∨ inp.refresh_clicked
                     then "" else s.filter_value_manual := rfl
            rw [hman, if_pos hkey]
          · right
            rw [hv, if_neg hkey]
            have hne : (sidebar_filter_pass_enabled meta_columns svc_key s inp).filter_value_selected_key ≠ "" := by
              intro h0
              apply heff
              rw [if_neg hkey]
              exact h0
            have hkmem : (sidebar_filter_pass_enabled meta_columns svc_key s inp).filter_value_selected_key
                ∈ "" :: MANUAL_SENTINEL ::
                    (sidebar_filter_pass_enabled meta_columns svc_key s inp).filter_value_options := by
              have hk : (sidebar_filter_pass_enabled meta_columns svc_key s inp).filter_value_selected_key
                  = pick_option ("" :: MANUAL_SENTINEL ::
                      (sidebar_filter_pass_enabled meta_columns svc_key s inp).filter_value_options)
                      inp.value_choice := rfl
              rw [hk]
              exact pick_option_mem _ inp.value_choice (by simp)
            rw [hopts] at hkmem
            rcases List.mem_cons.mp hkmem with hk0 | hkmem
            · exact absurd hk0 hne
            · rcases List.mem_cons.mp hkmem with hk1 | hkmem
              · exact absurd hk1 hkey
              · exact hkmem
        · rw [if_neg heff] at h
          cases h
      · rw [if_neg hcond] at h
        cases h

end CortexApp
